import Mathlib

/-!
Verification of the "She Nurtures" response-shaping pipeline.

Shallow embedding of the JavaScript sources:
  * `src/server/server.js`         — HTTP handlers, Azure TTS service, fallback service
  * `src/unnamed/part_000`         — browser `AppState` plus a server revision carrying
                                     `validateResponse`, the `PERFECT_*_FALLBACK` constants
                                     and the regex cleanup chain
  * `src/unnamed/part_001`         — a more lenient server revision of `validateResponse`

Strings are modelled as `List Char`.  JavaScript's `\s` character class is modelled by its
ASCII subset (all strings the program manipulates relevantly are ASCII), `toLowerCase` by
ASCII lowercasing.
-/

abbrev Str := List Char

/-- ASCII subset of the JavaScript `\s` class (space, tab, newline, CR, VT, FF). -/
def isSpaceChar (c : Char) : Bool :=
  c = ' ' || c = '\t' || c = '\n' || c = '\x0d' || c = '\x0b' || c = '\x0c'

/-- ASCII decimal digit, the `\d` class. -/
def isDigitChar (c : Char) : Bool :=
  '0' ≤ c && c ≤ '9'

/-- `String.prototype.trimStart`. -/
def trimLeft (s : Str) : Str := s.dropWhile isSpaceChar

/-- `String.prototype.trimEnd`. -/
def trimRight (s : Str) : Str := (s.reverse.dropWhile isSpaceChar).reverse

/-- `String.prototype.trim`. -/
def trimStr (s : Str) : Str := trimRight (trimLeft s)

/-- `String.prototype.startsWith`. -/
def startsWith (p s : Str) : Bool := p.isPrefixOf s

/-- `String.prototype.includes`: `hasSub pat s` is true iff `pat` occurs in `s`. -/
def hasSub (pat : Str) : Str → Bool
  | [] => pat.isEmpty
  | c :: t => pat.isPrefixOf (c :: t) || hasSub pat t

/-- ASCII `toLowerCase` on one character. -/
def lowerChar (c : Char) : Char :=
  if 'A' ≤ c && c ≤ 'Z' then Char.ofNat (c.toNat + 32) else c

/-- ASCII `String.prototype.toLowerCase`. -/
def lowerStr (s : Str) : Str := s.map lowerChar

/-- Number of maximal runs of non-whitespace characters; the state records whether the
scan is currently inside such a run. -/
def countRuns : Bool → Str → Nat
  | _, [] => 0
  | inWord, c :: t =>
    if isSpaceChar c then countRuns false t
    else (if inWord then 0 else 1) + countRuns true t

/-- `text.trim().split(/\s+/).length` as computed by JavaScript: splitting the empty
string yields `[""]`, i.e. length 1; otherwise the number of whitespace-separated runs. -/
def wordCount (text : Str) : Nat :=
  let t := trimStr text
  if t.isEmpty then 1 else countRuns false t

/-- A sentence-delimiting character from the class `[.!?]`. -/
def isSentencePunct (c : Char) : Bool := c = '.' || c = '!' || c = '?'

/-- Scan for `text.split(/[.!?]+/).filter(s => s.trim().length > 0).length`: count the
segments between punctuation runs that contain at least one non-whitespace character.
The state records whether the current segment has already been counted. -/
def countSentencesAux : Bool → Str → Nat
  | _, [] => 0
  | counted, c :: t =>
    if isSentencePunct c then countSentencesAux false t
    else if isSpaceChar c then countSentencesAux counted t
    else if counted then countSentencesAux true t
    else 1 + countSentencesAux true t

/-- `sentenceCount` as computed in `validateResponse` (src/unnamed/part_000, line 1209). -/
def sentenceCount (text : Str) : Nat := countSentencesAux false text

-- ============================================================================
-- validateResponse — strict revision (src/unnamed/part_000, lines 1201-1249)
-- ============================================================================

/-- The mojibake bullet literal `'â€¢'` appearing in the source's forbidden-formatting
check (bytes C3 A2 E2 82 AC C2 A2, i.e. the three characters U+00E2 U+20AC U+00A2). -/
def mojibakeBullet : Str := [Char.ofNat 0xE2, Char.ofNat 0x20AC, Char.ofNat 0xA2]

/-- The `issues` record returned by the strict `validateResponse`. -/
structure ValidationIssues where
  formatting : Bool
  wrongStart : Bool
  noHealthcareRec : Bool
  wrongLength : Bool
  wrongSentenceCount : Bool
deriving DecidableEq, Repr

/-- The record returned by the strict `validateResponse`. -/
structure ValidationResult where
  isValid : Bool
  wordCount : Nat
  sentenceCount : Nat
  issues : ValidationIssues
deriving DecidableEq, Repr

/-- Per-mode lower word bound of the strict validator (`isSymptomMode ? 70 : 60`). -/
def minWordsFor (isSymptomMode : Bool) : Nat := if isSymptomMode then 70 else 60

/-- Per-mode upper word bound of the strict validator (`isSymptomMode ? 100 : 90`). -/
def maxWordsFor (isSymptomMode : Bool) : Nat := if isSymptomMode then 100 else 90

/-- Per-mode exact sentence count of the strict validator (`isSymptomMode ? 4 : 3`). -/
def expectedSentencesFor (isSymptomMode : Bool) : Nat := if isSymptomMode then 4 else 3

/-- Forbidden-formatting test of the strict validator: literal `*`, `-`, the mojibake
bullet, `"1."`, `"2."`, `"\n-"` or `":\n"` anywhere in the text. -/
def hasForbiddenFormatting (text : Str) : Bool :=
  hasSub ['*'] text || hasSub ['-'] text || hasSub mojibakeBullet text ||
  hasSub ['1', '.'] text || hasSub ['2', '.'] text ||
  hasSub ['\n', '-'] text || hasSub [':', '\n'] text

/-- Required-opening test of the strict validator: `text.startsWith('Thank you for
sharing')` in symptom mode, `text.startsWith('I understand')` in general mode. -/
def hasRequiredStart (text : Str) (isSymptomMode : Bool) : Bool :=
  if isSymptomMode then startsWith "Thank you for sharing".toList text
  else startsWith "I understand".toList text

/-- Healthcare-referral test of the strict validator, on the lowercased text. -/
def hasHealthcareRecommendation (text : Str) : Bool :=
  hasSub "healthcare provider".toList (lowerStr text) ||
  hasSub "medical professional".toList (lowerStr text) ||
  hasSub "doctor".toList (lowerStr text)

/-- The strict `validateResponse` (src/unnamed/part_000, lines 1201-1249). -/
def validateResponse (text : Str) (isSymptomMode : Bool) : ValidationResult :=
  let maxWords := maxWordsFor isSymptomMode
  let minWords := minWordsFor isSymptomMode
  let expectedSentences := expectedSentencesFor isSymptomMode
  let wc := wordCount text
  let sc := sentenceCount text
  let fmt := hasForbiddenFormatting text
  let start := hasRequiredStart text isSymptomMode
  let recm := hasHealthcareRecommendation text
  { isValid := !fmt && start && recm && decide (minWords ≤ wc) &&
      decide (wc ≤ maxWords) && decide (sc = expectedSentences)
    wordCount := wc
    sentenceCount := sc
    issues :=
      { formatting := fmt
        wrongStart := !start
        noHealthcareRec := !recm
        wrongLength := decide (wc < minWords) || decide (maxWords < wc)
        wrongSentenceCount := decide (sc ≠ expectedSentences) } }

-- ============================================================================
-- Fallback constants (src/unnamed/part_000, lines 1164-1166)
-- ============================================================================

def PERFECT_GENERAL_FALLBACK : Str :=
  ("I understand you have questions about reproductive health, and seeking information " ++
   "shows you're taking an active role in your wellbeing. Many women share similar " ++
   "concerns about hormonal balance, menstrual health, and PCOS-related topics. I'd " ++
   "encourage discussing your specific concerns with a healthcare provider who can " ++
   "offer personalized guidance based on your individual health needs.").toList

def PERFECT_SYMPTOM_FALLBACK : Str :=
  ("Thank you for sharing these symptoms with me - seeking understanding about what " ++
   "your body is experiencing is so important. The symptoms you've described often " ++
   "suggest hormonal patterns that many women face, particularly related to " ++
   "reproductive health conditions. You're definitely not alone in having these " ++
   "concerns, and recognizing these patterns is a crucial first step. I encourage " ++
   "discussing these specific symptoms with a healthcare provider for proper " ++
   "evaluation and personalized care.").toList

-- ============================================================================
-- validateResponse — lenient revision (src/unnamed/part_001, lines 1104-1138)
-- ============================================================================

/-- The `issues` record returned by the lenient `validateResponse` revision. -/
structure LenientIssues where
  wrongStart : Bool
  noHealthcareRec : Bool
  wrongLength : Bool
deriving DecidableEq, Repr

/-- The record returned by the lenient `validateResponse` revision. -/
structure LenientResult where
  isValid : Bool
  wordCount : Nat
  issues : LenientIssues
deriving DecidableEq, Repr

/-- The lenient `validateResponse` revision (src/unnamed/part_001, lines 1104-1138):
bounds 50-110, case-insensitive opening match on the trimmed text, a wider
healthcare-phrase set, and no formatting or sentence-count rules. -/
def validateResponseLenient (text : Str) (isSymptomMode : Bool) : LenientResult :=
  let maxWords := 110
  let minWords := 50
  let wc := wordCount text
  let normalizedText := lowerStr (trimStr text)
  let start :=
    if isSymptomMode then startsWith "thank you for sharing".toList normalizedText
    else startsWith "i understand".toList normalizedText
  let recm := hasSub "healthcare provider".toList normalizedText ||
    hasSub "consult a doctor".toList normalizedText ||
    hasSub "see a doctor".toList normalizedText ||
    hasSub "medical professional".toList normalizedText
  { isValid := start && recm && decide (minWords ≤ wc) && decide (wc ≤ maxWords)
    wordCount := wc
    issues :=
      { wrongStart := !start
        noHealthcareRec := !recm
        wrongLength := decide (wc < minWords) || decide (maxWords < wc) } }

set_option maxRecDepth 100000

-- ============================================================================
-- Claims C1 and C2
-- ============================================================================

/-- C1: the claim states that the fixed fallback text of each mode passes
`validateResponse` for that mode with `isValid` true and all issue flags false.  The code
contradicts this: both fallback texts contain a literal `-` (general: `"PCOS-related"`,
symptom: `" - "`), tripping the forbidden-formatting rule, and the general fallback has
only 54 words, below the 60-word minimum.  This theorem evaluates the validator at the
two fallback texts and records the failure. -/
theorem fallbacks_fail_validateResponse :
    (validateResponse PERFECT_GENERAL_FALLBACK false).isValid = false ∧
    (validateResponse PERFECT_GENERAL_FALLBACK false).issues.formatting = true ∧
    (validateResponse PERFECT_GENERAL_FALLBACK false).issues.wrongLength = true ∧
    (validateResponse PERFECT_GENERAL_FALLBACK false).wordCount = 54 ∧
    (validateResponse PERFECT_SYMPTOM_FALLBACK true).isValid = false ∧
    (validateResponse PERFECT_SYMPTOM_FALLBACK true).issues.formatting = true := by
  decide

/-- Boolean core of the strict validator's `isValid` / `issues` relationship. -/
theorem strictValidCore (f s r : Bool) (mn mx ex wc sc : Nat) :
    (!f && s && r && decide (mn ≤ wc) && decide (wc ≤ mx) && decide (sc = ex)) = true ↔
      (f = false ∧ (!s) = false ∧ (!r) = false ∧
        (decide (wc < mn) || decide (mx < wc)) = false ∧ decide (sc ≠ ex) = false) := by
  simp [Bool.and_eq_true, Nat.not_lt]
  tauto

/-- Boolean core of the lenient validator's `isValid` / `issues` relationship. -/
theorem lenientValidCore (s r : Bool) (wc : Nat) :
    (s && r && decide (50 ≤ wc) && decide (wc ≤ 110)) = true ↔
      ((!s) = false ∧ (!r) = false ∧
        (decide (wc < 50) || decide (110 < wc)) = false) := by
  simp [Bool.and_eq_true, Nat.not_lt]
  tauto

/-- C2: for every input text and mode flag, `isValid` is true iff every flag of the
returned `issues` record is false — for the strict revision of `validateResponse`
(src/unnamed/part_000) and for the lenient revision (src/unnamed/part_001). -/
theorem validateResponse_isValid_iff_issues_all_false (text : Str) (m : Bool) :
    ((validateResponse text m).isValid = true ↔
      ((validateResponse text m).issues.formatting = false ∧
       (validateResponse text m).issues.wrongStart = false ∧
       (validateResponse text m).issues.noHealthcareRec = false ∧
       (validateResponse text m).issues.wrongLength = false ∧
       (validateResponse text m).issues.wrongSentenceCount = false)) ∧
    ((validateResponseLenient text m).isValid = true ↔
      ((validateResponseLenient text m).issues.wrongStart = false ∧
       (validateResponseLenient text m).issues.noHealthcareRec = false ∧
       (validateResponseLenient text m).issues.wrongLength = false)) := by
  exact ⟨strictValidCore _ _ _ _ _ _ _ _, lenientValidCore _ _ _⟩

-- ============================================================================
-- HTTP layer model (src/server/server.js)
-- ============================================================================

/-- A JSON value bound to a request-body field, as far as the handlers inspect it:
either a string or some non-string value. -/
inductive JsVal where
  | str : Str → JsVal
  | notStr : JsVal
deriving DecidableEq

/-- The `symptoms` body field: either an array of JSON values or a non-array value. -/
inductive SymVal where
  | arr : List JsVal → SymVal
  | notArr : SymVal
deriving DecidableEq

/-- Result object of `AzureTTSService.generateSpeech` (src/server/server.js, line 385). -/
structure TtsResult where
  audioData : Str
  mimeType : Str
  voiceName : Str
deriving DecidableEq

/-- The `data` object assembled by the two POST handlers; fields absent from a given
branch (voiceName/mimeType in the fallback branch, analyzedSymptoms in the chat route)
are `none`. -/
structure ResponseData where
  audioData : Option Str
  text : Str
  isFallback : Bool
  service : Str
  voiceName : Option Str
  mimeType : Option Str
  mode : Str
  analyzedSymptoms : Option (List Str)
deriving DecidableEq

/-- The JSON envelope sent by a handler, together with its HTTP status code. -/
structure ApiResponse where
  status : Nat
  success : Bool
  error : Option Str
  data : Option ResponseData
deriving DecidableEq

/-- `FallbackResponseService.generateFallbackResponse` (src/server/server.js,
lines 483-494): text-only response object with `audioData: null, isFallback: true`. -/
def generateFallbackResponse (text : Str) (type_ : Str) : ResponseData :=
  { audioData := none, text := text, isFallback := true, service := "fallback".toList,
    voiceName := none, mimeType := none, mode := type_, analyzedSymptoms := none }

/-- `const sanitizedInput = userInput.trim().substring(0, 500)` (server.js, line 512). -/
def sanitizedChatInput (userInput : Str) : Str := (trimStr userInput).take 500

/-- `POST /api/chat` handler (src/server/server.js, lines 497-577).  The two outbound
calls are parameters: `generate` models `OpenRouterService.generateResponse` (total — it
catches every error internally and returns fallback text), `tts` models
`AzureTTSService.generateSpeech` with `none` for a thrown error. -/
def chatHandler (userInput : Option JsVal)
    (generate : Str → Str) (tts : Str → Option TtsResult) : ApiResponse :=
  match userInput with
  | some (JsVal.str s) =>
    if s.isEmpty || (trimStr s).isEmpty then
      { status := 400, success := false,
        error := some "Invalid input. Please provide a non-empty text message.".toList,
        data := none }
    else
      let aiText := generate (sanitizedChatInput s)
      match tts aiText with
      | some r =>
        { status := 200, success := true, error := none,
          data := some { audioData := some r.audioData, text := aiText,
                         isFallback := false, service := "azure-tts".toList,
                         voiceName := some r.voiceName, mimeType := some r.mimeType,
                         mode := "general".toList, analyzedSymptoms := none } }
      | none =>
        { status := 200, success := true, error := none,
          data := some (generateFallbackResponse aiText "general".toList) }
  | _ =>
    { status := 400, success := false,
      error := some "Invalid input. Please provide a non-empty text message.".toList,
      data := none }

/-- Keys of `SYMPTOM_DESCRIPTIONS` (src/server/server.js, lines 150-165). -/
def SYMPTOM_KEYS : List Str :=
  ["irregular_periods".toList, "missed_periods".toList, "heavy_periods".toList,
   "painful_periods".toList, "weight_gain".toList, "acne".toList, "hair_growth".toList,
   "hair_loss".toList, "fatigue".toList, "mood_changes".toList, "sleep_issues".toList,
   "fertility_issues".toList, "cravings".toList, "headaches".toList]

/-- `SYMPTOM_DESCRIPTIONS.hasOwnProperty(symptom)`. -/
def isKnownSymptom (s : Str) : Bool := SYMPTOM_KEYS.contains s

/-- `symptoms.filter(s => typeof s === 'string' && SYMPTOM_DESCRIPTIONS.hasOwnProperty(s))`
(src/server/server.js, lines 595-597), projected to the retained strings. -/
def validSymptomsOf (symptoms : List JsVal) : List Str :=
  symptoms.filterMap fun v =>
    match v with
    | JsVal.str s => if isKnownSymptom s then some s else none
    | JsVal.notStr => none

/-- `POST /api/symptom-check` handler (src/server/server.js, lines 580-677), with the
outbound calls as parameters as in `chatHandler`. -/
def symptomCheckHandler (symptoms : Option SymVal)
    (generate : List Str → Str) (tts : Str → Option TtsResult) : ApiResponse :=
  match symptoms with
  | some (SymVal.arr l) =>
    if l.isEmpty then
      { status := 400, success := false,
        error := some "Invalid input. Please provide an array of symptoms.".toList,
        data := none }
    else
      let validSymptoms := validSymptomsOf l
      if validSymptoms.isEmpty then
        { status := 400, success := false,
          error := some "No valid symptoms provided.".toList, data := none }
      else
        let aiText := generate validSymptoms
        match tts aiText with
        | some r =>
          { status := 200, success := true, error := none,
            data := some { audioData := some r.audioData, text := aiText,
                           isFallback := false, service := "azure-tts".toList,
                           voiceName := some r.voiceName, mimeType := some r.mimeType,
                           mode := "symptom".toList,
                           analyzedSymptoms := some validSymptoms } }
        | none =>
          { status := 200, success := true, error := none,
            data := some { generateFallbackResponse aiText "symptom".toList with
                           analyzedSymptoms := some validSymptoms } }
  | _ =>
    { status := 400, success := false,
      error := some "Invalid input. Please provide an array of symptoms.".toList,
      data := none }

-- ============================================================================
-- Claims C4, C5, C6, C7
-- ============================================================================

/-- C4: for every `/api/chat` request whose input validation passes, if the TTS step
throws then the handler still responds 200 with `success:true`, `data.audioData` null,
`data.isFallback` true and `data.text` the generated text — the speech failure never
surfaces as a request failure. -/
theorem chat_tts_failure_degrades_to_text_only
    (s : Str) (generate : Str → Str)
    (h : (trimStr s).isEmpty = false) :
    chatHandler (some (JsVal.str s)) generate (fun _ => none) =
      { status := 200, success := true, error := none,
        data := some { audioData := none, text := generate (sanitizedChatInput s),
                       isFallback := true, service := "fallback".toList,
                       voiceName := none, mimeType := none, mode := "general".toList,
                       analyzedSymptoms := none } } := by
  have hs : s.isEmpty = false := by
    cases s with
    | nil => simp [trimStr, trimLeft, trimRight] at h
    | cons a t => rfl
  simp [chatHandler, h, hs, generateFallbackResponse]

theorem chat_tts_failure_degrades_to_text_only_witness :
    (trimStr "hi".toList).isEmpty = false ∧
    chatHandler (some (JsVal.str "hi".toList)) (fun _ => "ok".toList) (fun _ => none) =
      { status := 200, success := true, error := none,
        data := some { audioData := none, text := "ok".toList, isFallback := true,
                       service := "fallback".toList, voiceName := none, mimeType := none,
                       mode := "general".toList, analyzedSymptoms := none } } :=
  ⟨by decide,
   chat_tts_failure_degrades_to_text_only "hi".toList (fun _ => "ok".toList) (by decide)⟩

/-- C5: a `/api/symptom-check` request whose symptoms array is non-empty but contains no
string that is a key of `SYMPTOM_DESCRIPTIONS` gets a 400 `success:false` response. -/
theorem symptom_check_all_invalid_gets_400
    (l : List JsVal) (generate : List Str → Str) (tts : Str → Option TtsResult)
    (hne : l ≠ [])
    (hinv : ∀ s : Str, JsVal.str s ∈ l → isKnownSymptom s = false) :
    (symptomCheckHandler (some (SymVal.arr l)) generate tts).status = 400 ∧
    (symptomCheckHandler (some (SymVal.arr l)) generate tts).success = false := by
  have hempty : validSymptomsOf l = [] := by
    rw [validSymptomsOf, List.filterMap_eq_nil_iff]
    intro v hv
    cases v with
    | str s => simp [hinv s hv]
    | notStr => rfl
  simp [symptomCheckHandler, hne, hempty]

theorem symptom_check_all_invalid_gets_400_witness :
    ([JsVal.str "bogus".toList, JsVal.notStr] ≠ []) ∧
    (symptomCheckHandler (some (SymVal.arr [JsVal.str "bogus".toList, JsVal.notStr]))
        (fun _ => "ok".toList) (fun _ => none)).status = 400 ∧
    (symptomCheckHandler (some (SymVal.arr [JsVal.str "bogus".toList, JsVal.notStr]))
        (fun _ => "ok".toList) (fun _ => none)).success = false :=
  ⟨by decide,
   symptom_check_all_invalid_gets_400 [JsVal.str "bogus".toList, JsVal.notStr]
     (fun _ => "ok".toList) (fun _ => none) (by decide)
     (by intro s hs; simp at hs; subst hs; decide)⟩

/-- The symptom filter on an all-strings array is `List.filter isKnownSymptom`. -/
theorem validSymptomsOf_map_str (codes : List Str) :
    validSymptomsOf (codes.map JsVal.str) = codes.filter isKnownSymptom := by
  rw [validSymptomsOf, List.filterMap_map]
  induction codes with
  | nil => rfl
  | cons c t ih =>
    by_cases hc : isKnownSymptom c <;>
      simp [List.filterMap_cons, List.filter_cons, hc, Function.comp, ih]

/-- C6: a `/api/symptom-check` request mixing valid and invalid codes succeeds and its
`analyzedSymptoms` is exactly the order-preserving filter of the submitted codes by
membership in the known symptom set. -/
theorem symptom_check_echoes_filtered_codes
    (codes : List Str) (generate : List Str → Str) (tts : Str → Option TtsResult)
    (h : codes.filter isKnownSymptom ≠ []) :
    (symptomCheckHandler (some (SymVal.arr (codes.map JsVal.str))) generate tts).status
        = 200 ∧
    (symptomCheckHandler (some (SymVal.arr (codes.map JsVal.str))) generate tts).success
        = true ∧
    ((symptomCheckHandler (some (SymVal.arr (codes.map JsVal.str))) generate tts).data.map
        ResponseData.analyzedSymptoms) = some (some (codes.filter isKnownSymptom)) := by
  have hv : validSymptomsOf (codes.map JsVal.str) = codes.filter isKnownSymptom :=
    validSymptomsOf_map_str codes
  have hne : codes.map JsVal.str ≠ [] := by
    intro hmap
    apply h
    simp [List.map_eq_nil_iff] at hmap
    simp [hmap]
  cases htts : tts (generate (codes.filter isKnownSymptom)) <;>
    simp [symptomCheckHandler, hne, hv, h, htts, generateFallbackResponse]

theorem symptom_check_echoes_filtered_codes_witness :
    (["acne".toList, "bogus".toList, "weight_gain".toList].filter isKnownSymptom ≠ []) ∧
    ((symptomCheckHandler
        (some (SymVal.arr (["acne".toList, "bogus".toList, "weight_gain".toList].map
          JsVal.str)))
        (fun _ => "ok".toList) (fun _ => none)).data.map ResponseData.analyzedSymptoms)
      = some (some (["acne".toList, "bogus".toList, "weight_gain".toList].filter
          isKnownSymptom)) :=
  ⟨by decide,
   (symptom_check_echoes_filtered_codes
     ["acne".toList, "bogus".toList, "weight_gain".toList]
     (fun _ => "ok".toList) (fun _ => none) (by decide)).2.2⟩

/-- C7: for every `/api/chat` request whose text trims to at least 500 characters, the
handler truncates the trimmed text to exactly 500 characters and that truncation is the
input handed to the completion client (it reappears as `generate`'s argument in the
response text, whatever the TTS outcome). -/
theorem chat_truncates_input_to_500
    (s : Str) (generate : Str → Str) (tts : Str → Option TtsResult)
    (h : 500 ≤ (trimStr s).length) :
    sanitizedChatInput s = (trimStr s).take 500 ∧
    (sanitizedChatInput s).length = 500 ∧
    ∃ d : ResponseData,
      (chatHandler (some (JsVal.str s)) generate tts).data = some d ∧
      d.text = generate (sanitizedChatInput s) := by
  refine ⟨rfl, ?_, ?_⟩
  · simp [sanitizedChatInput]
    omega
  · have htr : (trimStr s).isEmpty = false := by
      cases htrim : trimStr s with
      | nil => rw [htrim] at h; simp at h
      | cons a t => rfl
    have hs : s.isEmpty = false := by
      cases s with
      | nil => simp [trimStr, trimLeft, trimRight] at htr
      | cons a t => rfl
    cases htts : tts (generate (sanitizedChatInput s)) <;>
      simp [chatHandler, hs, htr, htts, generateFallbackResponse]

theorem chat_truncates_input_to_500_witness :
    500 ≤ (trimStr (List.replicate 600 'a')).length ∧
    (sanitizedChatInput (List.replicate 600 'a')).length = 500 :=
  ⟨by decide,
   (chat_truncates_input_to_500 (List.replicate 600 'a') (fun _ => "ok".toList)
     (fun _ => none) (by decide)).2.1⟩

-- ============================================================================
-- AzureTTSService.escapeSSML (src/server/server.js, lines 412-419) — claim C10
-- ============================================================================

/-- JavaScript's `text.replace(/c/g, rep)` for a single character `c`. -/
def replaceChar (c : Char) (rep : Str) : Str → Str
  | [] => []
  | a :: as => if a = c then rep ++ replaceChar c rep as else a :: replaceChar c rep as

/-- `AzureTTSService.escapeSSML`: the five chained global replacements, `&` first. -/
def escapeSSML (text : Str) : Str :=
  replaceChar '\'' "&apos;".toList
    (replaceChar '"' "&quot;".toList
      (replaceChar '>' "&gt;".toList
        (replaceChar '<' "&lt;".toList
          (replaceChar '&' "&amp;".toList text))))

/-- `rest` begins with one of the five XML entity tails. -/
def isEntityTail (rest : Str) : Bool :=
  "amp;".toList.isPrefixOf rest || "lt;".toList.isPrefixOf rest ||
  "gt;".toList.isPrefixOf rest || "quot;".toList.isPrefixOf rest ||
  "apos;".toList.isPrefixOf rest

/-- Every `&` in the string begins one of the entities
`&amp; &lt; &gt; &quot; &apos;`. -/
def ampEscaped : Str → Bool
  | [] => true
  | c :: rest => (!(c == '&') || isEntityTail rest) && ampEscaped rest

theorem replaceChar_append (c : Char) (rep l₁ l₂ : Str) :
    replaceChar c rep (l₁ ++ l₂) = replaceChar c rep l₁ ++ replaceChar c rep l₂ := by
  induction l₁ with
  | nil => simp [replaceChar]
  | cons a t ih =>
    by_cases h : a = c <;> simp [replaceChar, h, ih]

theorem escapeSSML_append (l₁ l₂ : Str) :
    escapeSSML (l₁ ++ l₂) = escapeSSML l₁ ++ escapeSSML l₂ := by
  simp only [escapeSSML, replaceChar_append]

theorem escapeSSML_cons (a : Char) (as : Str) :
    escapeSSML (a :: as) = escapeSSML [a] ++ escapeSSML as := by
  rw [← List.singleton_append, escapeSSML_append]

theorem escapeSSML_single (a : Char) :
    escapeSSML [a] =
      if a = '&' then "&amp;".toList else
      if a = '<' then "&lt;".toList else
      if a = '>' then "&gt;".toList else
      if a = '"' then "&quot;".toList else
      if a = '\'' then "&apos;".toList else [a] := by
  by_cases h1 : a = '&'
  · subst h1; decide
  by_cases h2 : a = '<'
  · subst h2; decide
  by_cases h3 : a = '>'
  · subst h3; decide
  by_cases h4 : a = '"'
  · subst h4; decide
  by_cases h5 : a = '\''
  · subst h5; decide
  simp [escapeSSML, replaceChar, h1, h2, h3, h4, h5]

theorem ampEscaped_amp (rest : Str) :
    ampEscaped ("&amp;".toList ++ rest) = ampEscaped rest := by
  simp [ampEscaped, isEntityTail, List.isPrefixOf]

theorem ampEscaped_lt (rest : Str) :
    ampEscaped ("&lt;".toList ++ rest) = ampEscaped rest := by
  simp [ampEscaped, isEntityTail, List.isPrefixOf]

theorem ampEscaped_gt (rest : Str) :
    ampEscaped ("&gt;".toList ++ rest) = ampEscaped rest := by
  simp [ampEscaped, isEntityTail, List.isPrefixOf]

theorem ampEscaped_quot (rest : Str) :
    ampEscaped ("&quot;".toList ++ rest) = ampEscaped rest := by
  simp [ampEscaped, isEntityTail, List.isPrefixOf]

theorem ampEscaped_apos (rest : Str) :
    ampEscaped ("&apos;".toList ++ rest) = ampEscaped rest := by
  simp [ampEscaped, isEntityTail, List.isPrefixOf]

theorem ampEscaped_safe_cons (a : Char) (rest : Str) (h : a ≠ '&') :
    ampEscaped (a :: rest) = ampEscaped rest := by
  simp [ampEscaped, h]

theorem mem_escapeSSML_single (x a : Char) (hx : x ∈ escapeSSML [a]) :
    x ≠ '<' ∧ x ≠ '>' ∧ x ≠ '"' ∧ x ≠ '\'' := by
  rw [escapeSSML_single] at hx
  by_cases h1 : a = '&'
  · simp [h1] at hx; rcases hx with h | h | h | h | h <;> subst h <;> decide
  by_cases h2 : a = '<'
  · simp [h1, h2] at hx; rcases hx with h | h | h | h <;> subst h <;> decide
  by_cases h3 : a = '>'
  · simp [h1, h2, h3] at hx; rcases hx with h | h | h | h <;> subst h <;> decide
  by_cases h4 : a = '"'
  · simp [h1, h2, h3, h4] at hx
    rcases hx with h | h | h | h | h | h <;> subst h <;> decide
  by_cases h5 : a = '\''
  · simp [h1, h2, h3, h4, h5] at hx
    rcases hx with h | h | h | h | h | h <;> subst h <;> decide
  simp [h1, h2, h3, h4, h5] at hx
  subst hx
  exact ⟨h2, h3, h4, h5⟩

theorem mem_escapeSSML (s : Str) (x : Char) (hx : x ∈ escapeSSML s) :
    x ≠ '<' ∧ x ≠ '>' ∧ x ≠ '"' ∧ x ≠ '\'' := by
  induction s with
  | nil => simp [escapeSSML, replaceChar] at hx
  | cons a t ih =>
    rw [escapeSSML_cons] at hx
    rcases List.mem_append.mp hx with h | h
    · exact mem_escapeSSML_single x a h
    · exact ih h

theorem ampEscaped_escapeSSML (s : Str) : ampEscaped (escapeSSML s) = true := by
  induction s with
  | nil => decide
  | cons a t ih =>
    rw [escapeSSML_cons]
    by_cases h1 : a = '&'
    · subst h1
      have e : escapeSSML ['&'] = "&amp;".toList := by decide
      rw [e, ampEscaped_amp]; exact ih
    by_cases h2 : a = '<'
    · subst h2
      have e : escapeSSML ['<'] = "&lt;".toList := by decide
      rw [e, ampEscaped_lt]; exact ih
    by_cases h3 : a = '>'
    · subst h3
      have e : escapeSSML ['>'] = "&gt;".toList := by decide
      rw [e, ampEscaped_gt]; exact ih
    by_cases h4 : a = '"'
    · subst h4
      have e : escapeSSML ['"'] = "&quot;".toList := by decide
      rw [e, ampEscaped_quot]; exact ih
    by_cases h5 : a = '\''
    · subst h5
      have e : escapeSSML ['\''] = "&apos;".toList := by decide
      rw [e, ampEscaped_apos]; exact ih
    have e : escapeSSML [a] = [a] := by
      rw [escapeSSML_single]; simp [h1, h2, h3, h4, h5]
    rw [e, List.singleton_append, ampEscaped_safe_cons a _ h1]
    exact ih

/-- C10: for every input string, `escapeSSML`'s output contains no raw `<`, `>`, `"` or
`'`, and every `&` in it begins one of the entities `&amp; &lt; &gt; &quot; &apos;` — so
text interpolated into the SSML body cannot introduce raw XML markup. -/
theorem escapeSSML_no_raw_markup (s : Str) :
    '<' ∉ escapeSSML s ∧ '>' ∉ escapeSSML s ∧ '"' ∉ escapeSSML s ∧
    '\'' ∉ escapeSSML s ∧ ampEscaped (escapeSSML s) = true := by
  refine ⟨?_, ?_, ?_, ?_, ampEscaped_escapeSSML s⟩ <;> intro hmem
  · exact (mem_escapeSSML s _ hmem).1 rfl
  · exact (mem_escapeSSML s _ hmem).2.1 rfl
  · exact (mem_escapeSSML s _ hmem).2.2.1 rfl
  · exact (mem_escapeSSML s _ hmem).2.2.2 rfl

-- ============================================================================
-- AppState.addToHistory (src/unnamed/part_000, lines 29-41) — claim C9
-- ============================================================================

/-- One record pushed onto `conversationHistory` by `AppState.addToHistory`; the JS code
builds it from the arguments plus the wall clock and the current mode. -/
structure HistoryEntry where
  timestamp : Str
  question : Str
  response : Str
  entryType : Str
  mode : Str
deriving DecidableEq

/-- `AppState.addToHistory`: push the entry, then `shift()` (drop the oldest element) if
the list has grown past 20. -/
def addToHistory (history : List HistoryEntry) (e : HistoryEntry) : List HistoryEntry :=
  let h2 := history ++ [e]
  if 20 < h2.length then h2.tail else h2

theorem addToHistory_le_20 (h : List HistoryEntry) (e : HistoryEntry)
    (hle : h.length ≤ 20) : (addToHistory h e).length ≤ 20 := by
  simp only [addToHistory]
  by_cases hc : 20 < (h ++ [e]).length
  · rw [if_pos hc, List.length_tail]
    simp only [List.length_append, List.length_singleton]
    omega
  · rw [if_neg hc]
    simp only [List.length_append, List.length_singleton] at hc ⊢
    omega

/-- C9: every sequence of `addToHistory` operations starting from the constructor's
empty history keeps `conversationHistory` at 20 entries or fewer; each single operation
preserves the bound; and on a full history the evicted entry is the oldest one (the
result is the tail of the old history with the new entry appended). -/
theorem addToHistory_bounded_fifo :
    (∀ es : List HistoryEntry, (es.foldl addToHistory []).length ≤ 20) ∧
    (∀ (h : List HistoryEntry) (e : HistoryEntry),
      h.length ≤ 20 → (addToHistory h e).length ≤ 20) ∧
    (∀ (h : List HistoryEntry) (e : HistoryEntry),
      h.length = 20 → addToHistory h e = h.tail ++ [e]) := by
  refine ⟨?_, addToHistory_le_20, ?_⟩
  · intro es
    have key : ∀ (es : List HistoryEntry) (init : List HistoryEntry),
        init.length ≤ 20 → (es.foldl addToHistory init).length ≤ 20 := by
      intro es
      induction es with
      | nil => intro init hi; simpa using hi
      | cons e t ih =>
        intro init hi
        exact ih (addToHistory init e) (addToHistory_le_20 init e hi)
    exact key es [] (by simp)
  · intro h e hlen
    have hne : h ≠ [] := by
      intro hnil; rw [hnil] at hlen; simp at hlen
    simp only [addToHistory]
    rw [if_pos (by simp [hlen])]
    cases h with
    | nil => exact absurd rfl hne
    | cons a t => simp

/-- Witness for C9 at concrete inputs: a three-push sequence stays within the bound, a
single push on a shorter history preserves it, and a push on a full 20-entry history
drops exactly its head. -/
theorem addToHistory_bounded_fifo_witness :
    (([⟨[], [], [], [], []⟩, ⟨[], ['a'], [], [], []⟩,
       ⟨[], ['b'], [], [], []⟩] : List HistoryEntry).foldl addToHistory []).length ≤ 20 ∧
    (([] : List HistoryEntry).length ≤ 20 ∧
      (addToHistory [] ⟨[], [], [], [], []⟩).length ≤ 20) ∧
    ((List.replicate 20 (⟨[], [], [], [], []⟩ : HistoryEntry)).length = 20 ∧
      addToHistory (List.replicate 20 (⟨[], [], [], [], []⟩ : HistoryEntry))
          ⟨[], ['a'], [], [], []⟩ =
        (List.replicate 20 (⟨[], [], [], [], []⟩ : HistoryEntry)).tail ++
          [⟨[], ['a'], [], [], []⟩]) :=
  ⟨addToHistory_bounded_fifo.1 _,
   ⟨by decide, addToHistory_bounded_fifo.2.1 _ _ (by decide)⟩,
   ⟨by decide, addToHistory_bounded_fifo.2.2 _ _ (by decide)⟩⟩

-- ============================================================================
-- Claim C8: the minWords boundary of the strict validator
-- ============================================================================

/-- A 60-word, general-mode text with the required opening, the phrase `doctor`, no
forbidden characters — but 4 sentences instead of the 3 the validator demands. -/
def generalBoundary4Sentences : Str :=
  ("I understand aaa aaa aaa aaa aaa aaa aaa aaa aaa aaa aaa aaa aaa. " ++
   "aaa aaa aaa aaa aaa aaa aaa aaa aaa aaa aaa aaa aaa aaa aaa. " ++
   "aaa aaa aaa aaa aaa aaa aaa aaa aaa aaa aaa aaa aaa aaa aaa. " ++
   "aaa aaa aaa aaa aaa aaa aaa aaa aaa aaa aaa aaa aaa aaa doctor.").toList

/-- A 60-word, 3-sentence, general-mode text meeting every rule of the strict
validator at the lower word bound. -/
def generalBoundary3Sentences : Str :=
  ("I understand aaa aaa aaa aaa aaa aaa aaa aaa aaa aaa aaa aaa aaa aaa aaa aaa " ++
   "aaa aaa. aaa aaa aaa aaa aaa aaa aaa aaa aaa aaa aaa aaa aaa aaa aaa aaa aaa " ++
   "aaa aaa aaa. aaa aaa aaa aaa aaa aaa aaa aaa aaa aaa aaa aaa aaa aaa aaa aaa " ++
   "aaa aaa aaa doctor.").toList

/-- `generalBoundary3Sentences` with one filler word removed: 59 words. -/
def generalBoundary59Words : Str :=
  ("I understand aaa aaa aaa aaa aaa aaa aaa aaa aaa aaa aaa aaa aaa aaa aaa aaa " ++
   "aaa aaa. aaa aaa aaa aaa aaa aaa aaa aaa aaa aaa aaa aaa aaa aaa aaa aaa aaa " ++
   "aaa aaa aaa. aaa aaa aaa aaa aaa aaa aaa aaa aaa aaa aaa aaa aaa aaa aaa aaa " ++
   "aaa aaa doctor.").toList

/-- C8 counterexample: the claim asserts that any sanitized text of exactly `minWords`
words with the mode's opening phrase, an accepted healthcare-referral phrase and no
forbidden characters validates as true.  `generalBoundary4Sentences` meets all of those
hypotheses for general mode (60 words), yet the strict validator judges it invalid,
because `validateResponse` additionally demands exactly 3 sentences and this text has 4. -/
theorem minWords_boundary_claim_counterexample :
    hasForbiddenFormatting generalBoundary4Sentences = false ∧
    hasRequiredStart generalBoundary4Sentences false = true ∧
    hasHealthcareRecommendation generalBoundary4Sentences = true ∧
    wordCount generalBoundary4Sentences = minWordsFor false ∧
    sentenceCount generalBoundary4Sentences = 4 ∧
    (validateResponse generalBoundary4Sentences false).isValid = false := by
  decide

/-- C8 as amended: adding the validator's sentence-count requirement, a text of exactly
`minWords` words with the mode's opening phrase, an accepted healthcare phrase, no
forbidden characters and exactly the mode's expected sentence count is judged valid; and
any text of `minWords - 1` words is judged invalid. -/
theorem validateResponse_minWords_boundary :
    (∀ (text : Str) (m : Bool),
      hasForbiddenFormatting text = false →
      hasRequiredStart text m = true →
      hasHealthcareRecommendation text = true →
      wordCount text = minWordsFor m →
      sentenceCount text = expectedSentencesFor m →
      (validateResponse text m).isValid = true) ∧
    (∀ (text : Str) (m : Bool),
      wordCount text = minWordsFor m - 1 →
      (validateResponse text m).isValid = false) := by
  constructor
  · intro text m hf hs hr hw hsc
    cases m <;>
      simp_all [validateResponse, minWordsFor, maxWordsFor, expectedSentencesFor]
  · intro text m hw
    cases m <;> simp_all [validateResponse, minWordsFor, maxWordsFor]

theorem validateResponse_minWords_boundary_witness :
    (validateResponse generalBoundary3Sentences false).isValid = true ∧
    (validateResponse generalBoundary59Words false).isValid = false :=
  ⟨validateResponse_minWords_boundary.1 generalBoundary3Sentences false
     (by decide) (by decide) (by decide) (by decide) (by decide),
   validateResponse_minWords_boundary.2 generalBoundary59Words false (by decide)⟩

-- ============================================================================
-- The regex cleanup chain (src/unnamed/part_000, lines 1294-1301) — claim C3
-- ============================================================================

/-- `(l.dropWhile p).length ≤ l.length`, used for termination. -/
theorem dropWhileLengthLe (p : Char → Bool) (l : Str) :
    (l.dropWhile p).length ≤ l.length :=
  (List.dropWhile_sublist p).length_le

/-- A JavaScript LineTerminator — the characters the regex `.` does not match: LF, CR,
LINE SEPARATOR (U+2028) and PARAGRAPH SEPARATOR (U+2029). -/
def isLineTerminator (c : Char) : Bool :=
  c = '\n' || c = '\x0d' || c = Char.ofNat 0x2028 || c = Char.ofNat 0x2029

/-- Search for the lazy close of `/\*\*(.*?)\*\*/` : given the characters following an
opening `**`, return the captured group (which may not contain a line terminator, since
`.` matches neither `\n` nor `\r` nor U+2028/U+2029) and the characters after the
closing `**`. -/
def findBoldClose : Str → Option (Str × Str)
  | [] => none
  | [_] => none
  | c1 :: c2 :: rest =>
    if c1 = '*' && c2 = '*' then some ([], rest)
    else if isLineTerminator c1 then none
    else (findBoldClose (c2 :: rest)).map fun p => (c1 :: p.1, p.2)

theorem findBoldClose_eq :
    ∀ (l g r : Str), findBoldClose l = some (g, r) → l = g ++ '*' :: '*' :: r := by
  intro l
  induction l with
  | nil => intro g r h; simp [findBoldClose] at h
  | cons c1 t ih =>
    intro g r h
    cases t with
    | nil => simp [findBoldClose] at h
    | cons c2 rest =>
      rw [findBoldClose] at h
      by_cases h12 : c1 = '*' && c2 = '*'
      · rw [if_pos h12] at h
        simp at h h12
        obtain ⟨hg, hr⟩ := h
        simp [← hg, ← hr, h12.1, h12.2]
      · rw [if_neg h12] at h
        by_cases hn : isLineTerminator c1 = true
        · rw [if_pos hn] at h; simp at h
        · rw [if_neg hn] at h
          cases hfc : findBoldClose (c2 :: rest) with
          | none => rw [hfc] at h; simp at h
          | some p =>
            rw [hfc] at h
            simp at h
            obtain ⟨hg, hr⟩ := h
            have := ih p.1 p.2 (by rw [hfc])
            rw [← hg, ← hr] at *
            simp [this]

theorem findBoldClose_length (l g r : Str) (h : findBoldClose l = some (g, r)) :
    r.length + 2 ≤ l.length := by
  have := findBoldClose_eq l g r h
  subst this
  simp only [List.length_append, List.length_cons]
  omega

theorem boldTerm (rest g r : Str) (h : findBoldClose rest = some (g, r)) :
    r.length < rest.length + 1 + 1 := by
  have := findBoldClose_length rest g r h
  omega

/-- JavaScript's `text.replace(/\*\*(.*?)\*\*/g, '$1')`. -/
def replaceBold : Str → Str
  | [] => []
  | [c] => [c]
  | c1 :: c2 :: rest =>
    if c1 = '*' && c2 = '*' then
      match _h : findBoldClose rest with
      | some (g, r) => g ++ replaceBold r
      | none => c1 :: replaceBold (c2 :: rest)
    else c1 :: replaceBold (c2 :: rest)
termination_by l => l.length
decreasing_by
  all_goals simp only [List.length_cons]
  all_goals try omega
  all_goals exact boldTerm _ _ _ ‹_›

/-- Search for the lazy close of `/\*(.*?)\*/` : the captured group runs to the first
`*`, may not contain a line terminator (`.` matches neither `\n` nor `\r` nor
U+2028/U+2029), and the scan fails at the end of the string. -/
def findItalicClose : Str → Option (Str × Str)
  | [] => none
  | c :: rest =>
    if c = '*' then some ([], rest)
    else if isLineTerminator c then none
    else (findItalicClose rest).map fun p => (c :: p.1, p.2)

theorem findItalicClose_eq :
    ∀ (l g r : Str), findItalicClose l = some (g, r) → l = g ++ '*' :: r := by
  intro l
  induction l with
  | nil => intro g r h; simp [findItalicClose] at h
  | cons c rest ih =>
    intro g r h
    rw [findItalicClose] at h
    by_cases hs : c = '*'
    · rw [if_pos hs] at h
      simp at h
      obtain ⟨hg, hr⟩ := h
      simp [← hg, ← hr, hs]
    · rw [if_neg hs] at h
      by_cases hn : isLineTerminator c = true
      · rw [if_pos hn] at h; simp at h
      · rw [if_neg hn] at h
        cases hfc : findItalicClose rest with
        | none => rw [hfc] at h; simp at h
        | some p =>
          rw [hfc] at h
          simp at h
          obtain ⟨hg, hr⟩ := h
          have := ih p.1 p.2 (by rw [hfc])
          rw [← hg, ← hr] at *
          simp [this]

theorem findItalicClose_length (l g r : Str) (h : findItalicClose l = some (g, r)) :
    r.length + 1 ≤ l.length := by
  have := findItalicClose_eq l g r h
  subst this
  simp only [List.length_append, List.length_cons]
  omega

theorem italicTerm (rest g r : Str) (h : findItalicClose rest = some (g, r)) :
    r.length < rest.length + 1 := by
  have := findItalicClose_length rest g r h
  omega

/-- JavaScript's `text.replace(/\*(.*?)\*/g, '$1')`. -/
def replaceItalic : Str → Str
  | [] => []
  | c :: rest =>
    if c = '*' then
      match _h : findItalicClose rest with
      | some (g, r) => g ++ replaceItalic r
      | none => c :: replaceItalic rest
    else c :: replaceItalic rest
termination_by l => l.length
decreasing_by
  all_goals simp only [List.length_cons]
  all_goals try omega
  all_goals exact italicTerm _ _ _ ‹_›

theorem nlBulletTerm (rest r2 : Str) (h : rest.dropWhile isSpaceChar = '-' :: r2) :
    (r2.dropWhile isSpaceChar).length < rest.length + 1 := by
  have h1 : ('-' :: r2).length ≤ rest.length := h ▸ dropWhileLengthLe isSpaceChar rest
  have h2 : (r2.dropWhile isSpaceChar).length ≤ r2.length := dropWhileLengthLe _ r2
  simp only [List.length_cons] at h1
  omega

/-- JavaScript's `text.replace(/\n\s*-\s*/g, ' ')`: at each newline, skip the maximal
whitespace run; if a `-` follows, consume it and the following whitespace run and emit a
single space. -/
def replaceNlBullet : Str → Str
  | [] => []
  | c :: rest =>
    if c = '\n' then
      match _h : rest.dropWhile isSpaceChar with
      | '-' :: r2 => ' ' :: replaceNlBullet (r2.dropWhile isSpaceChar)
      | _ => c :: replaceNlBullet rest
    else c :: replaceNlBullet rest
termination_by l => l.length
decreasing_by
  all_goals simp only [List.length_cons]
  all_goals try omega
  all_goals exact nlBulletTerm _ _ ‹_›

theorem nlNumTerm (rest r2 : Str)
    (h : (rest.dropWhile isSpaceChar).dropWhile isDigitChar = '.' :: r2) :
    (r2.dropWhile isSpaceChar).length < rest.length + 1 := by
  have h0 : ('.' :: r2).length ≤ (rest.dropWhile isSpaceChar).length :=
    h ▸ dropWhileLengthLe isDigitChar (rest.dropWhile isSpaceChar)
  have h1 : (rest.dropWhile isSpaceChar).length ≤ rest.length :=
    dropWhileLengthLe isSpaceChar rest
  have h2 : (r2.dropWhile isSpaceChar).length ≤ r2.length := dropWhileLengthLe _ r2
  simp only [List.length_cons] at h0
  omega

/-- JavaScript's `text.replace(/\n\s*\d+\.\s*/g, ' ')`: at each newline, skip the
maximal whitespace run, then a non-empty maximal digit run; if a `.` follows, consume it
and the following whitespace run and emit a single space. -/
def replaceNlNum : Str → Str
  | [] => []
  | c :: rest =>
    if c = '\n' then
      match _h : (rest.dropWhile isSpaceChar).dropWhile isDigitChar with
      | '.' :: r2 =>
        if (rest.dropWhile isSpaceChar).takeWhile isDigitChar = [] then
          c :: replaceNlNum rest
        else ' ' :: replaceNlNum (r2.dropWhile isSpaceChar)
      | _ => c :: replaceNlNum rest
    else c :: replaceNlNum rest
termination_by l => l.length
decreasing_by
  all_goals simp only [List.length_cons]
  all_goals try omega
  all_goals exact nlNumTerm _ _ ‹_›

theorem collapseTerm (rest : Str) :
    (rest.dropWhile isSpaceChar).length < rest.length + 1 := by
  have := dropWhileLengthLe isSpaceChar rest
  omega

/-- JavaScript's `text.replace(/\s+/g, ' ')`. -/
def collapseWs : Str → Str
  | [] => []
  | c :: rest =>
    if isSpaceChar c then ' ' :: collapseWs (rest.dropWhile isSpaceChar)
    else c :: collapseWs rest
termination_by l => l.length
decreasing_by
  all_goals simp only [List.length_cons]
  all_goals try omega
  all_goals exact collapseTerm _

/-- The response cleanup chain of `OpenRouterService.generateResponse`
(src/unnamed/part_000, lines 1294-1301): strip bold, strip italic, remove
newline-prefixed bullets, remove newline-prefixed numbered-list markers, collapse
whitespace runs to single spaces, trim. -/
def sanitize (s : Str) : Str :=
  trimStr (collapseWs (replaceNlNum (replaceNlBullet (replaceItalic (replaceBold s)))))

-- ----------------------------------------------------------------------------
-- trim and collapseWs infrastructure
-- ----------------------------------------------------------------------------

theorem trimRight_isPrefix (l : Str) : trimRight l <+: l := by
  rw [trimRight, ← List.reverse_suffix, List.reverse_reverse]
  exact List.dropWhile_suffix isSpaceChar

theorem trimStr_sublist (l : Str) : (trimStr l).Sublist l := by
  rw [trimStr, trimLeft]
  exact ((trimRight_isPrefix _).sublist).trans (List.dropWhile_sublist isSpaceChar)

theorem mem_trimStr (x : Char) (l : Str) (h : x ∈ trimStr l) : x ∈ l :=
  (trimStr_sublist l).subset h

theorem count_trimStr_le (x : Char) (l : Str) :
    (trimStr l).count x ≤ l.count x :=
  (trimStr_sublist l).count_le x

/-- The head of the list, when present, is not whitespace. -/
def headNotSpace : Str → Bool
  | [] => true
  | c :: _ => !(isSpaceChar c)

theorem headNotSpace_dropWhile (l : Str) :
    headNotSpace (l.dropWhile isSpaceChar) = true := by
  induction l with
  | nil => rfl
  | cons c t ih =>
    by_cases hc : isSpaceChar c
    · simpa [List.dropWhile_cons, hc] using ih
    · simp [List.dropWhile_cons, hc, headNotSpace]

theorem dropWhile_eq_self_of_headNotSpace (l : Str) (h : headNotSpace l = true) :
    l.dropWhile isSpaceChar = l := by
  cases l with
  | nil => rfl
  | cons c t =>
    simp only [headNotSpace, Bool.not_eq_eq_eq_not, Bool.not_true] at h
    simp [List.dropWhile_cons, h]

theorem dropWhile_space_idem (l : Str) :
    (l.dropWhile isSpaceChar).dropWhile isSpaceChar = l.dropWhile isSpaceChar :=
  dropWhile_eq_self_of_headNotSpace _ (headNotSpace_dropWhile l)

theorem headNotSpace_of_isPrefix (l m : Str) (hp : m <+: l)
    (h : headNotSpace l = true) : headNotSpace m = true := by
  cases m with
  | nil => rfl
  | cons c t =>
    obtain ⟨u, hu⟩ := hp
    cases l with
    | nil => simp at hu
    | cons c2 t2 =>
      simp only [List.cons_append] at hu
      obtain ⟨rfl, -⟩ := List.cons.injEq .. ▸ hu
      exact h

theorem headNotSpace_trimRight (l : Str) (h : headNotSpace l = true) :
    headNotSpace (trimRight l) = true :=
  headNotSpace_of_isPrefix l (trimRight l) (trimRight_isPrefix l) h

theorem trimRight_idem (l : Str) : trimRight (trimRight l) = trimRight l := by
  simp only [trimRight, List.reverse_reverse]
  rw [dropWhile_space_idem]

theorem trimStr_idem (l : Str) : trimStr (trimStr l) = trimStr l := by
  have h1 : headNotSpace (trimStr l) = true := by
    rw [trimStr, trimLeft]
    exact headNotSpace_trimRight _ (headNotSpace_dropWhile l)
  show trimRight ((trimStr l).dropWhile isSpaceChar) = trimStr l
  rw [dropWhile_eq_self_of_headNotSpace _ h1, trimStr, trimRight_idem]

/-- The string is in collapsed form: every whitespace character is a plain space and no
two adjacent characters are both whitespace. -/
def collapsedB : Str → Bool
  | [] => true
  | [c] => !(isSpaceChar c) || c = ' '
  | c1 :: c2 :: rest =>
    (!(isSpaceChar c1) || (c1 = ' ' && !(isSpaceChar c2))) && collapsedB (c2 :: rest)

theorem collapsedB_of_cons (c : Char) (l : Str) (h : collapsedB (c :: l) = true) :
    collapsedB l = true := by
  cases l with
  | nil => rfl
  | cons c2 t => exact (Bool.and_eq_true .. ▸ h).2

theorem headNotSpace_collapseWs (l : Str) (h : headNotSpace l = true) :
    headNotSpace (collapseWs l) = true := by
  cases l with
  | nil => simp [collapseWs, headNotSpace]
  | cons c t =>
    simp only [headNotSpace, Bool.not_eq_eq_eq_not, Bool.not_true] at h
    simp [collapseWs, h, headNotSpace]

theorem collapsedB_cons_of_headNotSpace (c : Char) (l : Str)
    (hc : isSpaceChar c = false ∨ (c = ' ' ∧ headNotSpace l = true))
    (hl : collapsedB l = true) : collapsedB (c :: l) = true := by
  cases l with
  | nil =>
    show (!(isSpaceChar c) || c = ' ') = true
    rcases hc with h | ⟨h, -⟩ <;> simp [h]
  | cons c2 t =>
    show ((!(isSpaceChar c) || (c = ' ' && !(isSpaceChar c2))) && collapsedB (c2 :: t))
        = true
    rcases hc with h | ⟨h, h2⟩
    · simp [h, hl]
    · simp only [headNotSpace, Bool.not_eq_eq_eq_not, Bool.not_true] at h2
      simp [h, h2, hl]

theorem collapsedB_collapseWs (l : Str) : collapsedB (collapseWs l) = true := by
  induction l using collapseWs.induct with
  | case1 => simp [collapseWs, collapsedB]
  | case2 c rest hc ih =>
    rw [collapseWs, if_pos hc]
    refine collapsedB_cons_of_headNotSpace _ _ (Or.inr ⟨rfl, ?_⟩) ih
    exact headNotSpace_collapseWs _ (headNotSpace_dropWhile rest)
  | case3 c rest hc ih =>
    rw [collapseWs, if_neg hc]
    refine collapsedB_cons_of_headNotSpace _ _ (Or.inl ?_) ih
    exact Bool.not_eq_true _ ▸ hc

theorem collapseWs_eq_self_of_collapsedB (l : Str) (h : collapsedB l = true) :
    collapseWs l = l := by
  induction l with
  | nil => simp [collapseWs]
  | cons c t ih =>
    by_cases hc : isSpaceChar c
    · rw [collapseWs, if_pos hc]
      cases t with
      | nil =>
        have : c = ' ' := by
          have h1 : (!(isSpaceChar c) || c = ' ') = true := h
          simp [hc] at h1
          exact h1
        simp [this, List.dropWhile_nil, collapseWs]
      | cons c2 t2 =>
        have h1 : (!(isSpaceChar c) || (c = ' ' && !(isSpaceChar c2))) = true :=
          (Bool.and_eq_true .. ▸ h).1
        have h2 : collapsedB (c2 :: t2) = true := (Bool.and_eq_true .. ▸ h).2
        simp only [hc, Bool.not_true, Bool.false_or, Bool.and_eq_true,
          Bool.not_eq_eq_eq_not] at h1
        obtain ⟨hceq, hc2⟩ := h1
        have hceq2 : c = ' ' := of_decide_eq_true hceq
        rw [List.dropWhile_cons, if_neg (by simp [hc2])]
        rw [ih h2, hceq2]
    · rw [collapseWs, if_neg hc]
      rw [ih (collapsedB_of_cons c t h)]

theorem collapsedB_append_left (l₁ l₂ : Str)
    (h : collapsedB (l₁ ++ l₂) = true) : collapsedB l₁ = true := by
  induction l₁ with
  | nil => rfl
  | cons c t ih =>
    cases t with
    | nil =>
      cases l₂ with
      | nil => exact h
      | cons d u =>
        have h1 : (!(isSpaceChar c) || (c = ' ' && !(isSpaceChar d))) = true :=
          (Bool.and_eq_true .. ▸ h).1
        show (!(isSpaceChar c) || c = ' ') = true
        rcases Bool.or_eq_true .. ▸ h1 with h2 | h2
        · simp [h2]
        · simp [(Bool.and_eq_true .. ▸ h2).1]
    | cons c2 t2 =>
      have h1 : (!(isSpaceChar c) || (c = ' ' && !(isSpaceChar c2))) = true :=
        (Bool.and_eq_true .. ▸ h).1
      have h2 : collapsedB ((c2 :: t2) ++ l₂) = true := (Bool.and_eq_true .. ▸ h).2
      show ((!(isSpaceChar c) || (c = ' ' && !(isSpaceChar c2))) &&
        collapsedB (c2 :: t2)) = true
      simp [h1, ih h2]

theorem collapsedB_suffix (l₁ l₂ : Str) (hs : l₁ <:+ l₂)
    (h : collapsedB l₂ = true) : collapsedB l₁ = true := by
  obtain ⟨t, rfl⟩ := hs
  induction t with
  | nil => exact h
  | cons c u ih => exact ih (collapsedB_of_cons c (u ++ l₁) h)

theorem collapsedB_trimStr (l : Str) (h : collapsedB l = true) :
    collapsedB (trimStr l) = true := by
  have h1 : collapsedB (trimLeft l) = true :=
    collapsedB_suffix _ l (List.dropWhile_suffix isSpaceChar) h
  obtain ⟨t, ht⟩ := trimRight_isPrefix (trimLeft l)
  exact collapsedB_append_left _ t (ht ▸ h1)

theorem collapseWs_trimStr_collapseWs (l : Str) :
    collapseWs (trimStr (collapseWs l)) = trimStr (collapseWs l) :=
  collapseWs_eq_self_of_collapsedB _ (collapsedB_trimStr _ (collapsedB_collapseWs l))

-- ----------------------------------------------------------------------------
-- Behaviour of the replacement passes on newline-free and star-poor strings
-- ----------------------------------------------------------------------------

theorem replaceNlBullet_id_of_nf (l : Str) (h : '\n' ∉ l) : replaceNlBullet l = l := by
  induction l with
  | nil => simp [replaceNlBullet]
  | cons c t ih =>
    have hc : ¬ c = '\n' := by intro hh; exact h (hh ▸ List.mem_cons_self c t)
    rw [replaceNlBullet, if_neg hc, ih (fun hm => h (List.mem_cons_of_mem c hm))]

theorem replaceNlNum_id_of_nf (l : Str) (h : '\n' ∉ l) : replaceNlNum l = l := by
  induction l with
  | nil => simp [replaceNlNum]
  | cons c t ih =>
    have hc : ¬ c = '\n' := by intro hh; exact h (hh ▸ List.mem_cons_self c t)
    rw [replaceNlNum, if_neg hc, ih (fun hm => h (List.mem_cons_of_mem c hm))]

theorem no_newline_collapseWs (l : Str) : '\n' ∉ collapseWs l := by
  induction l using collapseWs.induct with
  | case1 => simp [collapseWs]
  | case2 c rest hc ih =>
    rw [collapseWs, if_pos hc]
    intro hmem
    rcases List.mem_cons.mp hmem with h | h
    · exact absurd h.symm (by decide)
    · exact ih h
  | case3 c rest hc ih =>
    rw [collapseWs, if_neg hc]
    intro hmem
    rcases List.mem_cons.mp hmem with h | h
    · exact hc (h ▸ (by decide : isSpaceChar '\n' = true))
    · exact ih h

theorem findItalicClose_none_no_star (l : Str) (h : findItalicClose l = none)
    (hnf : ∀ x ∈ l, isLineTerminator x = false) : '*' ∉ l := by
  induction l with
  | nil => simp
  | cons c t ih =>
    rw [findItalicClose] at h
    by_cases hs : c = '*'
    · rw [if_pos hs] at h; simp at h
    · rw [if_neg hs] at h
      have hn : ¬ isLineTerminator c = true := by
        simp [hnf c (List.mem_cons_self c t)]
      rw [if_neg hn] at h
      have ht : findItalicClose t = none := by
        cases hfc : findItalicClose t with
        | none => rfl
        | some p => rw [hfc] at h; simp at h
      intro hmem
      rcases List.mem_cons.mp hmem with hh | hh
      · exact hs hh.symm
      · exact ih ht (fun x hm => hnf x (List.mem_cons_of_mem c hm)) hh

theorem findItalicClose_none_of_no_star (l : Str) (h : '*' ∉ l) :
    findItalicClose l = none := by
  induction l with
  | nil => rfl
  | cons c t ih =>
    rw [findItalicClose]
    have hs : ¬ c = '*' := fun hh => h (hh ▸ List.mem_cons_self c t)
    rw [if_neg hs]
    by_cases hn : isLineTerminator c = true
    · rw [if_pos hn]
    · rw [if_neg hn, ih (fun hm => h (List.mem_cons_of_mem c hm))]
      rfl

theorem findItalicClose_group_no_star (l : Str) :
    ∀ g r, findItalicClose l = some (g, r) → '*' ∉ g := by
  induction l with
  | nil => intro g r h; simp [findItalicClose] at h
  | cons c t ih =>
    intro g r h
    rw [findItalicClose] at h
    by_cases hs : c = '*'
    · rw [if_pos hs] at h
      simp at h
      obtain ⟨h1, h2⟩ := h
      subst h1
      simp
    · rw [if_neg hs] at h
      by_cases hn : isLineTerminator c = true
      · rw [if_pos hn] at h; simp at h
      · rw [if_neg hn] at h
        cases hfc : findItalicClose t with
        | none => rw [hfc] at h; simp at h
        | some p =>
          rw [hfc] at h
          simp at h
          obtain ⟨hg, -⟩ := h
          rw [← hg]
          intro hmem
          rcases List.mem_cons.mp hmem with hh | hh
          · exact hs hh.symm
          · exact ih p.1 p.2 (by rw [hfc]) hh

theorem replaceItalic_id_of_star_le_one (l : Str) (h : l.count '*' ≤ 1) :
    replaceItalic l = l := by
  induction l with
  | nil => simp [replaceItalic]
  | cons c t ih =>
    rw [replaceItalic]
    by_cases hs : c = '*'
    · rw [if_pos hs]
      have hz : t.count '*' = 0 := by
        rw [List.count_cons] at h
        simp [hs] at h
        omega
      have hns : '*' ∉ t := by
        intro hm
        have : 0 < t.count '*' := List.count_pos_iff.mpr hm
        omega
      rw [findItalicClose_none_of_no_star t hns]
      rw [ih (by omega), hs]
    · rw [if_neg hs]
      have : t.count '*' ≤ 1 := by
        rw [List.count_cons] at h
        omega
      rw [ih this]

theorem mem_replaceBold (x : Char) : ∀ l, x ∈ replaceBold l → x ∈ l := by
  intro l
  induction l using replaceBold.induct with
  | case1 => simp [replaceBold]
  | case2 c => simp [replaceBold]
  | case3 c1 c2 rest h12 g r hfc ih =>
    intro hx
    rw [replaceBold, if_pos h12, hfc] at hx
    have heq := findBoldClose_eq rest g r hfc
    rcases List.mem_append.mp hx with h | h
    · have hrest : x ∈ rest := by
        rw [heq]; exact List.mem_append.mpr (Or.inl h)
      exact List.mem_cons_of_mem _ (List.mem_cons_of_mem _ hrest)
    · have hrest : x ∈ rest := by
        rw [heq]
        exact List.mem_append.mpr (Or.inr
          (List.mem_cons_of_mem _ (List.mem_cons_of_mem _ (ih h))))
      exact List.mem_cons_of_mem _ (List.mem_cons_of_mem _ hrest)
  | case4 c1 c2 rest h12 hfc ih =>
    intro hx
    rw [replaceBold, if_pos h12, hfc] at hx
    rcases List.mem_cons.mp hx with h | h
    · exact h ▸ List.mem_cons_self _ _
    · exact List.mem_cons_of_mem _ (ih h)
  | case5 c1 c2 rest h12 ih =>
    intro hx
    rw [replaceBold, if_neg h12] at hx
    rcases List.mem_cons.mp hx with h | h
    · exact h ▸ List.mem_cons_self _ _
    · exact List.mem_cons_of_mem _ (ih h)

theorem mem_replaceItalic (x : Char) : ∀ l, x ∈ replaceItalic l → x ∈ l := by
  intro l
  induction l using replaceItalic.induct with
  | case1 => simp [replaceItalic]
  | case2 rest g r hfc ih =>
    intro hx
    rw [replaceItalic, if_pos rfl, hfc] at hx
    have heq := findItalicClose_eq rest g r hfc
    rcases List.mem_append.mp hx with h | h
    · have hrest : x ∈ rest := by
        rw [heq]; exact List.mem_append.mpr (Or.inl h)
      exact List.mem_cons_of_mem _ hrest
    · have hrest : x ∈ rest := by
        rw [heq]
        exact List.mem_append.mpr (Or.inr (List.mem_cons_of_mem _ (ih h)))
      exact List.mem_cons_of_mem _ hrest
  | case3 rest hfc ih =>
    intro hx
    rw [replaceItalic, if_pos rfl, hfc] at hx
    rcases List.mem_cons.mp hx with h | h
    · exact h ▸ List.mem_cons_self _ _
    · exact List.mem_cons_of_mem _ (ih h)
  | case4 c rest hc ih =>
    intro hx
    rw [replaceItalic, if_neg hc] at hx
    rcases List.mem_cons.mp hx with h | h
    · exact h ▸ List.mem_cons_self _ _
    · exact List.mem_cons_of_mem _ (ih h)

theorem count_star_replaceItalic_le_one (l : Str)
    (hnf : ∀ x ∈ l, isLineTerminator x = false) :
    (replaceItalic l).count '*' ≤ 1 := by
  induction l using replaceItalic.induct with
  | case1 => simp [replaceItalic]
  | case2 rest g r hfc ih =>
    have heq := findItalicClose_eq rest g r hfc
    have hnfr : ∀ x ∈ r, isLineTerminator x = false := by
      intro x hm
      apply hnf
      apply List.mem_cons_of_mem
      rw [heq]
      exact List.mem_append.mpr (Or.inr (List.mem_cons_of_mem _ hm))
    rw [replaceItalic, if_pos rfl, hfc, List.count_append]
    have hg : g.count '*' = 0 :=
      List.count_eq_zero.mpr (findItalicClose_group_no_star rest g r hfc)
    have := ih hnfr
    omega
  | case3 rest hfc ih =>
    have hnfr : ∀ x ∈ rest, isLineTerminator x = false :=
      fun x hm => hnf x (List.mem_cons_of_mem _ hm)
    have hns : '*' ∉ rest := findItalicClose_none_no_star rest hfc hnfr
    have hz : rest.count '*' = 0 := List.count_eq_zero.mpr hns
    rw [replaceItalic, if_pos rfl, hfc]
    rw [replaceItalic_id_of_star_le_one rest (by omega)]
    simp [List.count_cons, hz]
  | case4 c rest hc ih =>
    have hnfr : ∀ x ∈ rest, isLineTerminator x = false :=
      fun x hm => hnf x (List.mem_cons_of_mem _ hm)
    rw [replaceItalic, if_neg hc]
    have := ih hnfr
    rw [List.count_cons, if_neg (by simp [hc])]
    omega

theorem replaceBold_id_of_star_le_one (l : Str) (h : l.count '*' ≤ 1) :
    replaceBold l = l := by
  induction l using replaceBold.induct with
  | case1 => simp [replaceBold]
  | case2 c => simp [replaceBold]
  | case3 c1 c2 rest h12 g r hfc ih =>
    exfalso
    simp at h12
    obtain ⟨rfl, rfl⟩ := h12
    rw [List.count_cons, List.count_cons] at h
    simp at h
  | case4 c1 c2 rest h12 hfc ih =>
    exfalso
    simp at h12
    obtain ⟨rfl, rfl⟩ := h12
    rw [List.count_cons, List.count_cons] at h
    simp at h
  | case5 c1 c2 rest h12 ih =>
    rw [replaceBold, if_neg h12]
    have : (c2 :: rest).count '*' ≤ 1 := by
      rw [List.count_cons] at h
      omega
    rw [ih this]

theorem count_star_collapseWs_le (l : Str) :
    (collapseWs l).count '*' ≤ l.count '*' := by
  induction l using collapseWs.induct with
  | case1 => simp [collapseWs]
  | case2 c rest hc ih =>
    rw [collapseWs, if_pos hc]
    have hd : (rest.dropWhile isSpaceChar).count '*' ≤ rest.count '*' :=
      (List.dropWhile_sublist isSpaceChar).count_le '*'
    rw [List.count_cons, if_neg (by decide), List.count_cons]
    omega
  | case3 c rest hc ih =>
    rw [collapseWs, if_neg hc]
    rw [List.count_cons, List.count_cons]
    omega

-- ============================================================================
-- Claim C3: idempotence of the cleanup chain
-- ============================================================================

/-- C3 counterexample: sanitization is not idempotent.  The regex `.` matches no
LineTerminator, so on `"*a\nb*"` (and equally on `"*a\rb*"`) the italic regex cannot
match across the line terminator; the first pass only collapses it to a space, producing
`"*a b*"`, and the second pass then strips the emphasis markers, producing `"a b"`. -/
theorem sanitize_not_idempotent :
    (sanitize (sanitize ['*', 'a', '\n', 'b', '*']) ≠ sanitize ['*', 'a', '\n', 'b', '*'] ∧
     sanitize ['*', 'a', '\n', 'b', '*'] = "*a b*".toList ∧
     sanitize (sanitize ['*', 'a', '\n', 'b', '*']) = "a b".toList) ∧
    (sanitize (sanitize ['*', 'a', '\x0d', 'b', '*']) ≠
        sanitize ['*', 'a', '\x0d', 'b', '*'] ∧
     sanitize ['*', 'a', '\x0d', 'b', '*'] = "*a b*".toList ∧
     sanitize (sanitize ['*', 'a', '\x0d', 'b', '*']) = "a b".toList) := by
  have h2 : sanitize "*a b*".toList = "a b".toList := by
    simp [sanitize, replaceBold, replaceItalic, findItalicClose, isLineTerminator,
      replaceNlBullet, replaceNlNum, collapseWs, trimStr, trimLeft, trimRight,
      isSpaceChar, isDigitChar]
  constructor
  · have h1 : sanitize ['*', 'a', '\n', 'b', '*'] = "*a b*".toList := by
      simp [sanitize, replaceBold, replaceItalic, findItalicClose, isLineTerminator,
        replaceNlBullet, replaceNlNum, collapseWs, trimStr, trimLeft, trimRight,
        isSpaceChar, isDigitChar]
    refine ⟨?_, h1, by rw [h1, h2]⟩
    rw [h1, h2]
    decide
  · have h1 : sanitize ['*', 'a', '\x0d', 'b', '*'] = "*a b*".toList := by
      simp [sanitize, replaceBold, replaceItalic, findItalicClose, isLineTerminator,
        replaceNlBullet, replaceNlNum, collapseWs, trimStr, trimLeft, trimRight,
        isSpaceChar, isDigitChar]
    refine ⟨?_, h1, by rw [h1, h2]⟩
    rw [h1, h2]
    decide

/-- C3 as amended: on every input containing no LineTerminator character (`\n`, `\r`,
U+2028, U+2029 — the characters the regex `.` cannot match) the cleanup chain is
idempotent: `sanitize (sanitize T) = sanitize T`.  (The counterexamples show the
restriction is needed for both `\n` and `\r`.) -/
theorem sanitize_idempotent_of_no_line_terminator (T : Str)
    (h : ∀ x ∈ T, isLineTerminator x = false) :
    sanitize (sanitize T) = sanitize T := by
  have hb : ∀ x ∈ replaceBold T, isLineTerminator x = false :=
    fun x hm => h x (mem_replaceBold x T hm)
  have hlt : ∀ x ∈ replaceItalic (replaceBold T), isLineTerminator x = false :=
    fun x hm => hb x (mem_replaceItalic x _ hm)
  have hnfu : '\n' ∉ replaceItalic (replaceBold T) := by
    intro hm
    have := hlt '\n' hm
    simp [isLineTerminator] at this
  set u := replaceItalic (replaceBold T) with hu
  have hsan : sanitize T = trimStr (collapseWs u) := by
    rw [sanitize, replaceNlBullet_id_of_nf u hnfu, replaceNlNum_id_of_nf u hnfu]
  set z := trimStr (collapseWs u) with hz
  have hcnt_u : u.count '*' ≤ 1 := count_star_replaceItalic_le_one _ hb
  have hcnt_z : z.count '*' ≤ 1 :=
    le_trans (count_trimStr_le '*' _) (le_trans (count_star_collapseWs_le u) hcnt_u)
  have hnf_z : '\n' ∉ z := fun hm => no_newline_collapseWs u (mem_trimStr '\n' _ hm)
  have hcol : collapseWs z = z := collapseWs_trimStr_collapseWs u
  have htrim : trimStr z = z := trimStr_idem (collapseWs u)
  rw [hsan]
  show sanitize z = z
  rw [sanitize, replaceBold_id_of_star_le_one z hcnt_z,
      replaceItalic_id_of_star_le_one z hcnt_z,
      replaceNlBullet_id_of_nf z hnf_z, replaceNlNum_id_of_nf z hnf_z,
      hcol, htrim]

theorem sanitize_idempotent_of_no_line_terminator_witness :
    (∀ x ∈ ("I understand." : String).toList, isLineTerminator x = false) ∧
    sanitize (sanitize "I understand.".toList) = sanitize "I understand.".toList :=
  ⟨by decide,
   sanitize_idempotent_of_no_line_terminator "I understand.".toList (by decide)⟩
